import Mathlib

/-!
Shallow embedding of `src/bindgen/diagnostics.rs` from the `rust-bindgen`
repository: the diagnostic data model (`Level`, `Slice`, `Diagnostic`),
the snippet assembly performed by `Diagnostic::display`, the build-script
output shaping, the thread-local memoization of the invocation-context
flag, `Slice::with_location`, and the `get_line` utility.
-/

namespace Diagnostics

/-- Rust `Level` enum (severities). -/
inductive Level
  | Error
  | Warn
  | Info
  | Note
  | Help
deriving DecidableEq

/-- The rendering engine's annotation-kind vocabulary
(`annotate_snippets::snippet::AnnotationType`). -/
inductive AnnotKind
  | Error
  | Warning
  | Info
  | Note
  | Help
deriving DecidableEq

/-- `impl From<Level> for AnnotationType`. -/
def annotKindFromLevel : Level → AnnotKind
  | .Error => .Error
  | .Warn => .Warning
  | .Info => .Info
  | .Note => .Note
  | .Help => .Help

/-- `annotate_snippets::snippet::Annotation`: id, label, annotation type. -/
structure Annot where
  id : Option String
  label : Option String
  kind : AnnotKind
deriving DecidableEq

/-- A span annotation inside an external slice
(`annotate_snippets::snippet::SourceAnnotation`); `display` never builds
one, but the record type carries the (always empty) list. -/
structure SourceAnnot where
  range : Nat × Nat
  label : String
  kind : AnnotKind
deriving DecidableEq

/-- `annotate_snippets::snippet::Slice` (named `ExtSlice` in the source):
the slice record handed to the rendering engine. -/
structure ExtSlice where
  source : String
  line_start : Nat
  origin : Option String
  annots : List SourceAnnot
  fold : Bool
deriving DecidableEq

/-- `bindgen`'s own `Slice`: optional source text, optional origin label,
optional 1-based starting line (`line : Option<usize>`). -/
structure Slice where
  source : Option String := none
  filename : Option String := none
  line : Option Nat := none
deriving DecidableEq

/-- `bindgen`'s `Diagnostic`: optional title, ordered slices, ordered
footer entries. -/
structure Diagnostic where
  title : Option (String × Level) := none
  slices : List Slice := []
  footer : List (String × Level) := []

/-- `Diagnostic::with_title`. -/
def Diagnostic.with_title (d : Diagnostic) (title : String) (level : Level) :
    Diagnostic :=
  { d with title := some (title, level) }

/-- `Diagnostic::add_slice`. -/
def Diagnostic.add_slice (d : Diagnostic) (slice : Slice) : Diagnostic :=
  { d with slices := d.slices ++ [slice] }

/-- `Diagnostic::add_annotation`. -/
def Diagnostic.add_annot (d : Diagnostic) (msg : String) (level : Level) :
    Diagnostic :=
  { d with footer := d.footer ++ [(msg, level)] }

/-- The title annotation `display` builds from `self.title`. -/
def displayTitle (d : Diagnostic) : Option Annot :=
  d.title.map fun ml =>
    { id := some "bindgen", label := some ml.1,
      kind := annotKindFromLevel ml.2 }

/-- The fixed attribution entry pushed unconditionally at the end of the
footer list by `display`. -/
def bindgenAttribution : Annot :=
  { id := none, label := some "This diagnostic was generated by bindgen.",
    kind := AnnotKind.Info }

/-- A caller-supplied footer entry as `display` converts it. -/
def mkFooterAnnot (ml : String × Level) : Annot :=
  { id := none, label := some ml.1, kind := annotKindFromLevel ml.2 }

/-- The footer list `display` hands to the rendering engine: the mapped
caller entries followed by the fixed attribution entry. -/
def displayFooter (d : Diagnostic) : List Annot :=
  d.footer.map mkFooterAnnot ++ [bindgenAttribution]

/-- The external slice record `display` builds from a slice whose source
text is present: `line_start` is `slice.line.unwrap_or_default()`
(the `usize` default, 0), the origin is the slice's filename, and the
annotation list is empty with `fold: false`. -/
def mkExtSlice (s : Slice) (src : String) : ExtSlice :=
  { source := src, line_start := s.line.getD 0, origin := s.filename,
    annots := [], fold := false }

/-- The slice-record list `display` hands to the rendering engine: each
slice with source text contributes one record; slices without source text
are skipped. -/
def displaySlices (d : Diagnostic) : List ExtSlice :=
  d.slices.filterMap fun s => s.source.map (mkExtSlice s)

/-- The `hide_warning` hack string used in build-script mode. -/
def hideWarning : String := "\r        \r"

/-- Rust `str::lines`: split on newline characters, strip a trailing
carriage return from each line, and do not yield a final empty line after
a terminating newline. -/
def rustLines (s : String) : List String :=
  let parts := s.splitOn "\n"
  let parts :=
    match parts.getLast? with
    | some "" => parts.dropLast
    | _ => parts
  parts.map fun l => if l.endsWith "\r" then l.dropRight 1 else l

/-- Build-script mode output of `display`: one `cargo:warning` directive
per line of the rendered string, each carrying the defeat-prefix
`hideWarning` and then the line's text. -/
def buildScriptOutput (rendered : String) : List String :=
  (rustLines rendered).map fun line =>
    "cargo:warning=" ++ hideWarning ++ line

/-- An opaque filesystem I/O error value (`std::io::Error`), identified by
a code so that equality is decidable. -/
structure IOError where
  code : Nat
deriving DecidableEq

/-- Width of `usize` on the 64-bit targets `bindgen` runs on. -/
def usizeSize : Nat := 2 ^ 64

/-- Rust `usize::wrapping_sub(1)` applied to `line`. -/
def wrappingSub1 (line : Nat) : Nat :=
  (line + (usizeSize - 1)) % usizeSize

/-- A file as `get_line` observes it: either opening fails, or it yields
the stream of items produced by `BufReader::lines()` — each item a line's
text or a read error. -/
abbrev LineStream := Except IOError (List (Except IOError String))

/-- `get_line(filename, line)`: open the file (propagating the open
error), take the item at index `line.wrapping_sub(1)` of the lines
iterator; a string item yields `Ok(Some(text))`, an error item yields
`Err`, and iterator exhaustion yields `Ok(None)`.  `Iterator::nth`
discards the items before the requested index, error items included. -/
def get_line (file : LineStream) (line : Nat) :
    Except IOError (Option String) :=
  match file with
  | .error e => .error e
  | .ok stream =>
    match stream[wrappingSub1 line]? with
    | some (.ok text) => .ok (some text)
    | some (.error e) => .error e
    | none => .ok none

/-- `fmt::Write::write_str` on a `String`: the `std` impl appends and
always returns `Ok` ("Writing to a string cannot fail"). -/
def fmtWriteStr (s t : String) : Except Unit String := .ok (s ++ t)

/-- `Slice::with_location`: `write!(name, ":{line}:{col}")` into the
filename string — the `.expect(...)` panic branch is the `.error` case —
then set `filename` and `line` together. -/
def Slice.with_location (s : Slice) (name : String) (line col : Nat) :
    Except Unit Slice :=
  match fmtWriteStr name (":" ++ toString line ++ ":" ++ toString col) with
  | .ok n => .ok { s with filename := some n, line := some line }
  | .error _ => .error ()

/-- `Slice::with_source`. -/
def Slice.with_source (s : Slice) (src : String) : Slice :=
  { s with source := some src }

/-- Process state for the invocation-context check: the (stable) presence
of the designated environment variable, the per-thread caches created by
`std::thread_local!`, and a count of how many times the environment check
has actually run. -/
structure ProcState where
  env : Bool
  caches : List (Nat × Bool)
  computes : Nat

/-- Fresh process: no thread has initialized its thread-local yet. -/
def initState (env : Bool) : ProcState :=
  { env := env, caches := [], computes := 0 }

/-- Look up the calling thread's cached flag. -/
def findCache : List (Nat × Bool) → Nat → Option Bool
  | [], _ => none
  | (t, b) :: rest, tid => if t = tid then some b else findCache rest tid

/-- One `display` call's read of `INVOKED_BY_BUILD_SCRIPT` on thread
`tid`: the first access on a thread runs the environment check and caches
the result in that thread's slot; later accesses on the same thread reuse
the cached value. -/
def displayMode (st : ProcState) (tid : Nat) : Bool × ProcState :=
  match findCache st.caches tid with
  | some b => (b, st)
  | none =>
    (st.env,
     { st with caches := (tid, st.env) :: st.caches,
               computes := st.computes + 1 })

/-- Run a sequence of `display` calls, identified by calling thread,
collecting the mode flag each call observed. -/
def displayCalls (st : ProcState) : List Nat → List Bool × ProcState
  | [] => ([], st)
  | tid :: rest =>
    let r := displayMode st tid
    let rr := displayCalls r.2 rest
    (r.1 :: rr.1, rr.2)

theorem wrappingSub1_of_pos (line : Nat) (h1 : 1 ≤ line)
    (h2 : line < usizeSize) : wrappingSub1 line = line - 1 := by
  have hs : usizeSize = 18446744073709551616 := by norm_num [usizeSize]
  unfold wrappingSub1
  rw [hs] at h2 ⊢
  omega

theorem wrappingSub1_zero : wrappingSub1 0 = usizeSize - 1 := rfl

theorem findCache_eq_some {cs : List (Nat × Bool)} {tid : Nat} {b : Bool}
    (h : findCache cs tid = some b) : (tid, b) ∈ cs := by
  induction cs with
  | nil => simp [findCache] at h
  | cons p rest ih =>
    obtain ⟨t, v⟩ := p
    by_cases ht : t = tid
    · subst ht
      simp [findCache] at h
      subst h
      exact List.mem_cons_self _ _
    · simp [findCache, ht] at h
      exact List.mem_cons_of_mem _ (ih h)

theorem findCache_eq_none {cs : List (Nat × Bool)} {tid : Nat}
    (h : findCache cs tid = none) : tid ∉ cs.map Prod.fst := by
  induction cs with
  | nil => simp
  | cons p rest ih =>
    obtain ⟨t, v⟩ := p
    by_cases ht : t = tid
    · subst ht; simp [findCache] at h
    · simp [findCache, ht] at h
      simpa [Ne.symm ht] using ih h

/-- C9: the conversion from severity to the rendering engine's
annotation kind is total (a Lean function on the whole enum) and
one-to-one: two severities map to the same kind exactly when they are
equal. -/
theorem c9_severity_mapping_injective :
    ∀ a b : Level, (annotKindFromLevel a = annotKindFromLevel b ↔ a = b) := by
  intro a b
  cases a <;> cases b <;> decide

/-- C5: the footer list handed to the rendering engine is the mapped
caller entries, in order, followed by exactly one fixed attribution
entry: the last element is always `bindgenAttribution`, the prefix of
the caller's length is the caller's entries, and the length is the
caller's count plus one. -/
theorem c5_attribution_footer_always_last (d : Diagnostic) :
    (displayFooter d).getLast? = some bindgenAttribution ∧
    (displayFooter d).take d.footer.length = d.footer.map mkFooterAnnot ∧
    (displayFooter d).length = d.footer.length + 1 := by
  refine ⟨?_, ?_, ?_⟩
  · simp [displayFooter]
  · have h : d.footer.length = (d.footer.map mkFooterAnnot).length := by simp
    rw [displayFooter, h, List.take_left]
  · simp [displayFooter]

/-- C10: `Slice::with_location` never reaches its panic branch and in
one call sets both fields together: the filename becomes the given name
with a colon-separated line and column appended, and the stored line
becomes exactly the given line; the source text is untouched. -/
theorem c10_with_location_sets_both_fields (s : Slice) (name : String)
    (line col : Nat) :
    Slice.with_location s name line col =
      Except.ok { source := s.source,
                  filename :=
                    some (name ++ (":" ++ toString line ++ ":" ++ toString col)),
                  line := some line } := rfl

/-- C7: in build-script mode, a rendered string with `k` lines produces
exactly `k` warning directives, one per rendered line in order, each the
`cargo:warning` directive followed by the defeat-prefix and the line's
text. -/
theorem c7_one_directive_per_rendered_line (s : String) :
    (buildScriptOutput s).length = (rustLines s).length ∧
    ∀ i : Nat,
      (buildScriptOutput s)[i]? =
        ((rustLines s)[i]?).map
          (fun line => "cargo:warning=" ++ hideWarning ++ line) := by
  refine ⟨by simp [buildScriptOutput], ?_⟩
  intro i
  simp [buildScriptOutput]

/-- C1 counterexample: a diagnostic with one slice that has source text
but no starting line set hands the rendering engine a slice record whose
starting line number is 0, not 1 — `unwrap_or_default()` on an unset
`Option<usize>` yields 0. -/
theorem c1_counterexample :
    (displaySlices
        { title := none,
          slices := [⟨some "int x;", none, none⟩],
          footer := [] }).map ExtSlice.line_start = [0] ∧
    (0 : Nat) ≠ 1 := by
  constructor
  · rfl
  · decide

/-- C1 (amended): for every slice of a diagnostic that has source text
but no starting line set, the record handed to the rendering engine
carries starting line number 0, the `usize` default. -/
theorem c1_unset_line_defaults_to_zero (d : Diagnostic) (s : Slice)
    (src : String) (hmem : s ∈ d.slices) (hsrc : s.source = some src)
    (hline : s.line = none) :
    mkExtSlice s src ∈ displaySlices d ∧
    (mkExtSlice s src).line_start = 0 := by
  constructor
  · rw [displaySlices, List.mem_filterMap]
    exact ⟨s, hmem, by rw [hsrc]; rfl⟩
  · simp [mkExtSlice, hline]

theorem c1_unset_line_defaults_to_zero_witness :
    mkExtSlice ⟨some "int x;", none, none⟩ "int x;" ∈
      displaySlices
        { title := none,
          slices := [⟨some "int x;", none, none⟩],
          footer := [] } ∧
    (mkExtSlice ⟨some "int x;", none, none⟩ "int x;").line_start = 0 :=
  c1_unset_line_defaults_to_zero
    { title := none, slices := [⟨some "int x;", none, none⟩], footer := [] }
    ⟨some "int x;", none, none⟩ "int x;"
    (List.mem_singleton.mpr rfl) rfl rfl

/-- C6: a slice without source text contributes nothing to the slice
records `display` builds — prepending such a slice leaves the record
list unchanged — and when a label occurs only on sourceless slices, no
record handed to the engine carries it as origin. -/
theorem c6_sourceless_slice_skipped (d : Diagnostic) (s : Slice)
    (L : String) (hs : s.source = none)
    (hL : ∀ t ∈ d.slices, t.source.isSome → t.filename ≠ some L) :
    displaySlices { d with slices := s :: d.slices } = displaySlices d ∧
    ∀ r ∈ displaySlices d, r.origin ≠ some L := by
  constructor
  · rw [displaySlices, displaySlices]
    simp [hs]
  · intro r hr
    rw [displaySlices, List.mem_filterMap] at hr
    obtain ⟨t, ht, hft⟩ := hr
    rw [Option.map_eq_some'] at hft
    obtain ⟨src, hsrc, hmk⟩ := hft
    have : r.origin = t.filename := by rw [← hmk]; rfl
    rw [this]
    exact hL t ht (by rw [hsrc]; rfl)

theorem c6_sourceless_slice_skipped_witness :
    displaySlices
        { title := none,
          slices := ⟨none, some "skipped.h:1:2", some 1⟩ ::
            [⟨some "int x;", some "kept.h:3:4", some 3⟩],
          footer := [] } =
      displaySlices
        { title := none,
          slices := [⟨some "int x;", some "kept.h:3:4", some 3⟩],
          footer := [] } ∧
    ∀ r ∈ displaySlices
        { title := none,
          slices := [⟨some "int x;", some "kept.h:3:4", some 3⟩],
          footer := [] },
      r.origin ≠ some "skipped.h:1:2" :=
  c6_sourceless_slice_skipped
    { title := none,
      slices := [⟨some "int x;", some "kept.h:3:4", some 3⟩],
      footer := [] }
    ⟨none, some "skipped.h:1:2", some 1⟩ "skipped.h:1:2" rfl
    (by decide)

/-- C2 counterexample: a read failure on a line before the requested one
does not make `get_line` return `Err` — `Iterator::nth` discards the
earlier error item.  Here reading line 1 fails, yet `get_line` for line
2 returns `Ok(Some("second"))`. -/
theorem c2_counterexample :
    get_line (Except.ok [Except.error ⟨7⟩, Except.ok "second"]) 2 =
      Except.ok (some "second") ∧
    ([Except.error ⟨7⟩, Except.ok "second"] :
        List (Except IOError String))[0]? = some (Except.error ⟨7⟩) :=
  ⟨rfl, rfl⟩

/-- C2 (amended): `get_line` returns `Err` when the read of the
requested line itself fails (and, by `?`, when the open fails); a read
failure on an earlier line is skipped by the iterator and does not
surface. -/
theorem c2_err_iff_requested_line_read_fails
    (stream : List (Except IOError String)) (e : IOError) (line : Nat)
    (h1 : 1 ≤ line) (h2 : line < usizeSize)
    (h : stream[line - 1]? = some (Except.error e)) :
    get_line (Except.ok stream) line = Except.error e := by
  rw [get_line, wrappingSub1_of_pos line h1 h2, h]

theorem c2_err_iff_requested_line_read_fails_witness :
    1 ≤ 1 ∧ 1 < usizeSize ∧
    get_line (Except.ok [Except.error ⟨3⟩]) 1 = Except.error ⟨3⟩ :=
  ⟨Nat.le_refl 1, by norm_num [usizeSize],
   c2_err_iff_requested_line_read_fails [Except.error ⟨3⟩] ⟨3⟩ 1
     (Nat.le_refl 1) (by norm_num [usizeSize]) rfl⟩

/-- C3: `get_line` with line number 0 wraps the index below the valid
1-based range (`0.wrapping_sub(1)` is `usize::MAX`), so for every
readable file — whose line count is below `2^64` — the iterator is
exhausted and the result is `Ok(None)`: never an error, never a found
line. -/
theorem c3_line_zero_returns_none
    (stream : List (Except IOError String))
    (h : stream.length < usizeSize) :
    get_line (Except.ok stream) 0 = Except.ok none := by
  rw [get_line, wrappingSub1_zero, List.getElem?_eq_none]
  omega

theorem c3_line_zero_returns_none_witness :
    ([Except.ok "only line"] : List (Except IOError String)).length <
        usizeSize ∧
    get_line (Except.ok [Except.ok "only line"]) 0 = Except.ok none :=
  ⟨by norm_num [usizeSize],
   c3_line_zero_returns_none [Except.ok "only line"]
     (by norm_num [usizeSize])⟩

/-- C4: with no read failures, `get_line` returns `Ok(Some(text))` with
the n-th line when the file has at least `n` lines, `Ok(None)` when the
file opens but is shorter than `n` lines, and `Err` when the open
itself fails. -/
theorem c4_get_line_without_read_failures (lines : List String) (n : Nat)
    (e : IOError) (h1 : 1 ≤ n) (h2 : n < usizeSize) :
    (n ≤ lines.length →
      get_line (Except.ok (lines.map Except.ok)) n =
        Except.ok lines[n - 1]? ∧ lines[n - 1]?.isSome) ∧
    (lines.length < n →
      get_line (Except.ok (lines.map Except.ok)) n = Except.ok none) ∧
    get_line (Except.error e) n = Except.error e := by
  refine ⟨?_, ?_, rfl⟩
  · intro hle
    have hlt : n - 1 < lines.length := by omega
    have ht := List.getElem?_eq_getElem hlt
    rw [get_line, wrappingSub1_of_pos n h1 h2, List.getElem?_map, ht]
    simp
  · intro hgt
    have hnone : lines[n - 1]? = none := by
      rw [List.getElem?_eq_none]; omega
    rw [get_line, wrappingSub1_of_pos n h1 h2, List.getElem?_map, hnone]
    rfl

theorem c4_get_line_without_read_failures_witness :
    1 ≤ 2 ∧ 2 < usizeSize ∧
    (2 ≤ (["alpha", "beta"] : List String).length →
      get_line (Except.ok ((["alpha", "beta"] : List String).map Except.ok))
          2 =
        Except.ok (["alpha", "beta"] : List String)[2 - 1]? ∧
      ((["alpha", "beta"] : List String)[2 - 1]?).isSome) ∧
    ((["alpha", "beta"] : List String).length < 2 →
      get_line (Except.ok ((["alpha", "beta"] : List String).map Except.ok))
          2 = Except.ok none) ∧
    get_line (Except.error ⟨9⟩) 2 = Except.error ⟨9⟩ :=
  ⟨by norm_num, by norm_num [usizeSize],
   c4_get_line_without_read_failures ["alpha", "beta"] 2 ⟨9⟩
     (by norm_num) (by norm_num [usizeSize])⟩

theorem displayCalls_computes (tids : List Nat) :
    ∀ st : ProcState,
      (displayCalls st tids).2.computes =
        st.computes +
          (tids.toFinset \ (st.caches.map Prod.fst).toFinset).card := by
  induction tids with
  | nil =>
    intro st
    simp [displayCalls]
  | cons tid rest ih =>
    intro st
    cases hfc : findCache st.caches tid with
    | some b =>
      have htid : tid ∈ (st.caches.map Prod.fst).toFinset := by
        rw [List.mem_toFinset, List.mem_map]
        exact ⟨(tid, b), findCache_eq_some hfc, rfl⟩
      simp only [displayCalls, displayMode, hfc]
      rw [ih st, List.toFinset_cons, Finset.insert_sdiff_of_mem _ htid]
    | none =>
      have htid : tid ∉ (st.caches.map Prod.fst).toFinset := by
        rw [List.mem_toFinset]
        exact findCache_eq_none hfc
      simp only [displayCalls, displayMode, hfc]
      rw [ih _]
      simp only [List.map_cons, List.toFinset_cons]
      rw [Finset.sdiff_insert, Finset.insert_sdiff_of_not_mem _ htid]
      have hkey :
          (insert tid (rest.toFinset \
              (st.caches.map Prod.fst).toFinset)).card =
            ((rest.toFinset \
                (st.caches.map Prod.fst).toFinset).erase tid).card + 1 := by
        by_cases h : tid ∈ rest.toFinset \ (st.caches.map Prod.fst).toFinset
        · rw [Finset.insert_eq_self.mpr h, ← Finset.card_erase_add_one h]
        · rw [Finset.card_insert_of_not_mem h, Finset.erase_eq_of_not_mem h]
      omega

theorem displayCalls_values (tids : List Nat) :
    ∀ st : ProcState, (∀ p ∈ st.caches, p.2 = st.env) →
      ((displayCalls st tids).2.env = st.env ∧
       (∀ p ∈ (displayCalls st tids).2.caches, p.2 = st.env) ∧
       ∀ b ∈ (displayCalls st tids).1, b = st.env) := by
  induction tids with
  | nil =>
    intro st h
    exact ⟨rfl, h, by simp [displayCalls]⟩
  | cons tid rest ih =>
    intro st h
    cases hfc : findCache st.caches tid with
    | some b =>
      have hb : b = st.env := h _ (findCache_eq_some hfc)
      obtain ⟨h1, h2, h3⟩ := ih st h
      simp only [displayCalls, displayMode, hfc]
      refine ⟨h1, h2, ?_⟩
      intro x hx
      rcases List.mem_cons.mp hx with hx | hx
      · rw [hx, hb]
      · exact h3 x hx
    | none =>
      have hinv :
          ∀ p ∈ (tid, st.env) :: st.caches, p.2 = st.env := by
        intro p hp
        rcases List.mem_cons.mp hp with hp | hp
        · rw [hp]
        · exact h p hp
      obtain ⟨h1, h2, h3⟩ :=
        ih { st with caches := (tid, st.env) :: st.caches,
                     computes := st.computes + 1 } hinv
      simp only [displayCalls, displayMode, hfc]
      refine ⟨h1, h2, ?_⟩
      intro x hx
      rcases List.mem_cons.mp hx with hx | hx
      · rw [hx]
      · exact h3 x hx

/-- C8 counterexample: the invocation-context flag is held in a
`thread_local!`, so it is recomputed by each thread's first `display`
call: a run with calls from two distinct threads performs the
environment check twice, refuting "computed at most once per
process". -/
theorem c8_counterexample :
    (displayCalls (initState true) [0, 1]).2.computes = 2 ∧
    ¬ (displayCalls (initState true) [0, 1]).2.computes ≤ 1 := by
  decide

/-- C8 (amended): the flag is computed at most once per thread, not per
process: over any sequence of `display` calls the environment check runs
exactly once per distinct calling thread, and — the environment being
stable — every call observes the same value. -/
theorem c8_memoized_per_thread (env : Bool) (tids : List Nat) :
    (∀ b ∈ (displayCalls (initState env) tids).1, b = env) ∧
    (displayCalls (initState env) tids).2.computes = tids.dedup.length := by
  constructor
  · exact (displayCalls_values tids (initState env) (by simp [initState])).2.2
  · rw [displayCalls_computes tids (initState env)]
    simp [initState, List.card_toFinset]

end Diagnostics
